import Mathlib

/-!
Verification of the info-pulse news pipeline.

Shallow embedding of `src/info_pulse/news_fetcher.py` and
`src/info_pulse/summarizer.py`.  Python strings are Lean `String`s
(`str` slicing, `strip`, `len`, `in`, `replace` and `join` are modelled by
the explicit list-of-characters helpers below, so that every definition
kernel-evaluates).  Python `datetime` values are modelled as `Int`
timestamps (seconds); the stdlib collaborators `hashlib.md5`,
`datetime(...)`, `datetime.strptime` and `datetime.fromisoformat` are
fields of a `Collab` record, since their internals are outside this
repository.  Fetched feed/API payloads are supplied by a `FetchEnv`
record, and the summarization model's per-batch behaviour by a
`BatchOutcome` oracle.
-/

namespace InfoPulse

/-- Python `len(s)` (number of characters). -/
def strLen (s : String) : Nat := s.data.length

/-- Python slice `s[:n]` for `n ≥ 0`. -/
def strTake (s : String) (n : Nat) : String := ⟨s.data.take n⟩

/-- Characters of the Python `str.strip` / `\s` whitespace class. -/
def isPySpace (c : Char) : Bool :=
  c = ' ' || c = '\t' || c = '\n' || c = '\r' || c = '\x0b' || c = '\x0c'

/-- Python `s.strip()`. -/
def pyStrip (s : String) : String :=
  ⟨((s.data.dropWhile isPySpace).reverse.dropWhile isPySpace).reverse⟩

/-- An ASCII capital letter, the `[A-Z]` class. -/
def isUpperAZ (c : Char) : Bool := 'A' ≤ c && c ≤ 'Z'

/-- Python `pat in s` substring test. -/
def hasSubstr (pat : List Char) : List Char → Bool
  | [] => pat.isEmpty
  | c :: rest => pat.isPrefixOf (c :: rest) || hasSubstr pat rest

/-- Python `sep.join(parts)`. -/
def joinSep (sep : String) : List String → String
  | [] => ""
  | [s] => s
  | s :: rest => s ++ sep ++ joinSep sep rest

/-- Python `s.replace(pat, rep)` (all occurrences, left to right,
non-overlapping).  An empty pattern leaves the string unchanged (the code
only ever replaces the non-empty pattern "Z"). -/
def replaceSub (pat rep : List Char) (l : List Char) : List Char :=
  match l with
  | [] => []
  | c :: rest =>
    if h : pat ≠ [] ∧ pat.isPrefixOf (c :: rest) then
      rep ++ replaceSub pat rep ((c :: rest).drop pat.length)
    else
      c :: replaceSub pat rep rest
termination_by l.length
decreasing_by
  · have hp : 0 < pat.length := List.length_pos.mpr h.1
    simp only [List.length_drop, List.length_cons]
    omega
  · simp

/-- Python `s.replace(pat, rep)` on `String`s. -/
def strReplace (s pat rep : String) : String := ⟨replaceSub pat.data rep.data s.data⟩

/-- `re.sub(r"<[^>]+>", "", ·)` from `NewsFetcher._extract_summary`:
each match runs from a `<` through the nearest following `>` with at least
one character in between; unmatched `<` (no later `>`, or an immediate
`<>`) is kept verbatim.  Structural recursion on a fuel bounded by the
list length (every step consumes at least one character, so the fuel
never runs out when started at the length). -/
def stripTagsF : Nat → List Char → List Char
  | _, [] => []
  | 0, l => l
  | fuel + 1, c :: rest =>
    if c = '<' then
      match rest.dropWhile (fun d => d ≠ '>') with
      | _ :: after =>
        if rest.takeWhile (fun d => d ≠ '>') = [] then c :: stripTagsF fuel rest
        else stripTagsF fuel after
      | [] => c :: stripTagsF fuel rest
    else c :: stripTagsF fuel rest

/-- The tag-stripping pass on a character list. -/
def stripTags (l : List Char) : List Char := stripTagsF l.length l

/-- `re.sub(r"\s+[A-Z]{3,4}$", "", ·)` from
`NewsFetcher._parse_published_date`: drop a trailing run of exactly 3 or 4
capital letters together with the whitespace run immediately before it. -/
def stripTZAbbrev (s : String) : String :=
  let r := s.data.reverse
  let caps := r.takeWhile isUpperAZ
  let rest := r.dropWhile isUpperAZ
  if (caps.length = 3 ∨ caps.length = 4) ∧ rest.takeWhile isPySpace ≠ [] then
    ⟨(rest.dropWhile isPySpace).reverse⟩
  else s

/-- The stdlib collaborators used by `news_fetcher.py`, outside this
repository: `hashlib.md5(x.encode()).hexdigest()`,
`datetime(*t, tzinfo=timezone.utc)` (`none` on `TypeError`/`ValueError`),
`datetime.strptime(s, fmt)` normalised to UTC when naive (`none` on
`ValueError`), `datetime.fromisoformat` (`none` on `ValueError`), and the
current UTC time as a timestamp. -/
structure Collab where
  md5hex : String → String
  mkDatetimeUtc : List Int → Option Int
  strptime : String → String → Option Int
  fromisoformat : String → Option Int
  now : Int

/-- A news article (`news_fetcher.Article` dataclass, before
`__post_init__`).  `published` is a timestamp in seconds. -/
structure Article where
  title : String
  link : String
  source : String
  published : Int
  summary : String := ""
  ai_summary : String := ""
  topic : String := ""
  id : String := ""
deriving DecidableEq, Repr

/-- `Article.__post_init__`: when the `id` field is the (default) empty
string, set it to the first 12 hex characters of the md5 digest of
`title + link`; a non-empty `id` is left untouched. -/
def post_init (md5hex : String → String) (a : Article) : Article :=
  if a.id = "" then { a with id := strTake (md5hex (a.title ++ a.link)) 12 } else a

/-- A feed-entry field value as `_extract_summary` sees it: either a
string or a feedparser content list of dicts. -/
inductive FieldVal where
  | str (s : String)
  | lst (dicts : List (List (String × String)))
deriving DecidableEq, Repr

/-- Python `d.get(k, dflt)` on a string-to-string dict. -/
def dictGet (d : List (String × String)) (k dflt : String) : String :=
  match d.lookup k with
  | some v => v
  | none => dflt

/-- The string `_extract_summary` ends up testing for truthiness: a
string value is itself; a list value is replaced by its first element's
`value` key (`content[0].get("value", "")`) when non-empty, and an empty
list is falsy, encoded as `""`. -/
def fieldText : FieldVal → String
  | .str s => s
  | .lst [] => ""
  | .lst (d :: _) => dictGet d "value" ""

/-- A parsed feed entry, restricted to the keys `news_fetcher.py` reads.
`none` models an absent key (or a `None`/falsy value, which the code
skips the same way). -/
structure Entry where
  title : String := ""
  link : String := ""
  published_parsed : Option (List Int) := none
  updated_parsed : Option (List Int) := none
  created_parsed : Option (List Int) := none
  published : Option String := none
  updated : Option String := none
  created : Option String := none
  summary : Option FieldVal := none
  description : Option FieldVal := none
  content : Option FieldVal := none
deriving DecidableEq, Repr

/-- The explicit string date formats of `_parse_published_date`, in
source order. -/
def dateFormats : List String :=
  ["%a, %d %b %Y %H:%M:%S %z",
   "%Y-%m-%dT%H:%M:%S%z",
   "%Y-%m-%dT%H:%M:%SZ",
   "%a, %d %b %Y %H:%M:%S"]

/-- Inner loop of the string-date branch: try each format on the (already
timezone-stripped) string, first success wins. -/
def tryFormats (c : Collab) (s : String) : List String → Option Int
  | [] => none
  | fmt :: rest =>
    match c.strptime fmt s with
    | some dt => some dt
    | none => tryFormats c s rest

/-- First loop of `_parse_published_date`: the structured
`*_parsed` fields in order; a present, truthy tuple whose
`datetime(*t[:6], tzinfo=utc)` succeeds wins, failures fall through. -/
def tryStructDates (c : Collab) : List (Option (List Int)) → Option Int
  | [] => none
  | none :: rest => tryStructDates c rest
  | some t :: rest =>
    if t = [] then tryStructDates c rest
    else
      match c.mkDatetimeUtc (t.take 6) with
      | some dt => some dt
      | none => tryStructDates c rest

/-- Second loop of `_parse_published_date`: the string date fields in
order; a present, non-empty string for which some format parses wins. -/
def tryStringDates (c : Collab) : List (Option String) → Option Int
  | [] => none
  | none :: rest => tryStringDates c rest
  | some s :: rest =>
    if s = "" then tryStringDates c rest
    else
      match tryFormats c (stripTZAbbrev s) dateFormats with
      | some dt => some dt
      | none => tryStringDates c rest

/-- `NewsFetcher._parse_published_date`: structured fields, then string
fields, then the current time. -/
def parse_published_date (c : Collab) (e : Entry) : Int :=
  match tryStructDates c [e.published_parsed, e.updated_parsed, e.created_parsed] with
  | some dt => dt
  | none =>
    match tryStringDates c [e.published, e.updated, e.created] with
    | some dt => dt
    | none => c.now

/-- Python `clean[:500] if len(clean) > 500 else clean`. -/
def truncate500 (s : String) : String := if 500 < strLen s then strTake s 500 else s

/-- The field loop of `NewsFetcher._extract_summary`: first field whose
resolved text is truthy is tag-stripped and truncated; otherwise `""`. -/
def extractFromFields : List (Option FieldVal) → String
  | [] => ""
  | none :: rest => extractFromFields rest
  | some v :: rest =>
    if fieldText v = "" then extractFromFields rest
    else truncate500 ⟨stripTags (fieldText v).data⟩

/-- `NewsFetcher._extract_summary`. -/
def extract_summary (e : Entry) : String :=
  extractFromFields [e.summary, e.description, e.content]

/-- `NewsFetcher._clean_google_news_url` (both branches return the URL
unchanged; the Google-News branch is a stub in the source). -/
def clean_google_news_url (url : String) : String :=
  if hasSubstr "news.google.com".data url.data then url else url

/-- One `{url, name}` feed dict from `topics.yaml` (`none` = key absent,
read with `.get` defaults). -/
structure FeedCfg where
  url : Option String := none
  name : Option String := none
deriving DecidableEq, Repr

/-- One topic dict from `topics.yaml`. -/
structure TopicCfg where
  name : Option String := none
  keywords : Option (List String) := none
  rss_feeds : Option (List FeedCfg) := none
deriving DecidableEq, Repr

/-- The `settings` dict from `topics.yaml`. -/
structure SettingsCfg where
  max_articles_per_topic : Option Nat := none
  keep_days : Option Int := none
deriving DecidableEq, Repr

/-- The whole parsed `topics.yaml` mapping. -/
structure TopicsConfig where
  topics : Option (List TopicCfg) := none
  settings : Option SettingsCfg := none
deriving DecidableEq, Repr

/-- One element of NewsAPI's `articles` array, restricted to the keys the
code reads. -/
structure ApiItem where
  title : String := ""
  url : String := ""
  sourceName : Option String := none
  publishedAt : Option String := none
  description : String := ""
deriving DecidableEq, Repr

/-- The network environment of one run: RSS payload per feed URL (`none`
= the fetch/parse raised, caught per feed), the NewsAPI key, and the
NewsAPI payload per query string (`none` = request error, caught). -/
structure FetchEnv where
  feedEntries : String → Option (List Entry)
  newsApiKey : Option String := none
  apiResults : String → Option (List ApiItem) := fun _ => none

/-- The `Article(...)` constructed for one RSS entry inside
`fetch_rss_feed` (including `__post_init__`). -/
def entryArticle (c : Collab) (feed_name topic : String) (e : Entry) : Article :=
  post_init c.md5hex
    { title := pyStrip e.title
      link := clean_google_news_url e.link
      source := feed_name
      published := parse_published_date c e
      summary := extract_summary e
      topic := topic
      id := "" }

/-- The body of the entry loop of `NewsFetcher.fetch_rss_feed`: skip
entries with empty (stripped) title or empty link, then keep the article
only when its id is not in the per-run dedup set, adding the id. -/
def processEntry (c : Collab) (feed_name topic : String)
    (st : List Article × List String) (e : Entry) : List Article × List String :=
  if pyStrip e.title = "" ∨ e.link = "" then st
  else
    let a := entryArticle c feed_name topic e
    if a.id ∈ st.2 then st else (st.1 ++ [a], a.id :: st.2)

/-- `NewsFetcher.fetch_rss_feed`, given the already-fetched feed payload
(`none` = the fetch raised; the surrounding `except` then returns the
empty article list).  Returns the new articles and the updated dedup
set.  Only the first 20 entries are processed. -/
def fetch_rss_feed (c : Collab) (feedData : Option (List Entry))
    (feed_name topic : String) (seen : List String) : List Article × List String :=
  match feedData with
  | none => ([], seen)
  | some entries => (entries.take 20).foldl (processEntry c feed_name topic) ([], seen)

/-- `pub_date` resolution inside `fetch_news_api`: `publishedAt` (when
present and truthy) parsed with `fromisoformat` after replacing `"Z"`
with `"+00:00"`, falling back to the current time on `ValueError`. -/
def apiPubDate (c : Collab) (it : ApiItem) : Int :=
  match it.publishedAt with
  | none => c.now
  | some s =>
    if s = "" then c.now
    else (c.fromisoformat (strReplace s "Z" "+00:00")).getD c.now

/-- The `Article(...)` constructed for one NewsAPI item. -/
def apiArticle (c : Collab) (topic : String) (it : ApiItem) : Article :=
  post_init c.md5hex
    { title := pyStrip it.title
      link := it.url
      source := it.sourceName.getD "NewsAPI"
      published := apiPubDate c it
      summary := strTake it.description 500
      topic := topic
      id := "" }

/-- The body of the item loop of `NewsFetcher.fetch_news_api`: skip
items with empty title/link or a `[Removed]` title, then the same dedup
step as the RSS path. -/
def processApiItem (c : Collab) (topic : String)
    (st : List Article × List String) (it : ApiItem) : List Article × List String :=
  if pyStrip it.title = "" ∨ it.url = "" ∨ pyStrip it.title = "[Removed]" then st
  else
    let a := apiArticle c topic it
    if a.id ∈ st.2 then st else (st.1 ++ [a], a.id :: st.2)

/-- `NewsFetcher.fetch_news_api`: nothing without a (truthy) API key;
query is the first 3 keywords joined with " OR "; a request error
(`none` payload) contributes no articles. -/
def fetch_news_api (c : Collab) (env : FetchEnv) (keywords : List String)
    (topic : String) (seen : List String) : List Article × List String :=
  match env.newsApiKey with
  | none => ([], seen)
  | some key =>
    if key = "" then ([], seen)
    else
      match env.apiResults (joinSep " OR " (keywords.take 3)) with
      | none => ([], seen)
      | some items => items.foldl (processApiItem c topic) ([], seen)

/-- Stable descending insertion (Python `list.sort(key=published,
reverse=True)` places an earlier element before later ones of equal
key). -/
def insertDesc (a : Article) : List Article → List Article
  | [] => [a]
  | b :: l => if a.published < b.published then b :: insertDesc a l else a :: b :: l

/-- The descending-by-`published` sort used in `fetch_all`. -/
def sortDesc : List Article → List Article
  | [] => []
  | a :: l => insertDesc a (sortDesc l)

/-- The per-topic post-processing of `fetch_all`: recency filter
(inclusive at the cutoff), sort newest first, truncate. -/
def postprocess (cutoff : Int) (maxA : Nat) (l : List Article) : List Article :=
  (sortDesc (l.filter fun a => decide (cutoff ≤ a.published))).take maxA

/-- The feed loop of `fetch_all`: feeds with an empty (or absent) URL are
skipped; otherwise `fetch_rss_feed` extends the topic's article list and
the dedup set. -/
def feedStep (c : Collab) (env : FetchEnv) (topic : String)
    (st : List Article × List String) (f : FeedCfg) : List Article × List String :=
  if f.url.getD "" = "" then st
  else
    let r := fetch_rss_feed c (env.feedEntries (f.url.getD "")) (f.name.getD "Unknown")
      topic st.2
    (st.1 ++ r.1, r.2)

/-- One iteration of the topic loop of `fetch_all`: RSS feeds, the
NewsAPI fallback when fewer than 5 articles were gathered and keywords
exist, then the recency/sort/truncate post-processing.  The result pair
is appended to the results mapping (a later topic with the same name
shadows, modelling Python dict assignment). -/
def topicStep (c : Collab) (env : FetchEnv) (cutoff : Int) (maxA : Nat)
    (st : List (String × List Article) × List String) (t : TopicCfg) :
    List (String × List Article) × List String :=
  let topic_name := t.name.getD "Unknown"
  let r := (t.rss_feeds.getD []).foldl (feedStep c env topic_name) ([], st.2)
  let r2 :=
    if r.1.length < 5 ∧ t.keywords.getD [] ≠ [] then
      let a := fetch_news_api c env (t.keywords.getD []) topic_name r.2
      (r.1 ++ a.1, a.2)
    else r
  (st.1 ++ [(topic_name, postprocess cutoff maxA r2.1)], r2.2)

/-- `NewsFetcher.fetch_all` together with the final dedup-set state;
`seen` is `self.seen_ids` at call time (empty for a fresh fetcher). -/
def fetchAllSt (c : Collab) (env : FetchEnv) (cfg : TopicsConfig)
    (seen : List String) : List (String × List Article) × List String :=
  let settings := cfg.settings.getD {}
  let cutoff := c.now - settings.keep_days.getD 2 * 86400
  (cfg.topics.getD []).foldl
    (topicStep c env cutoff (settings.max_articles_per_topic.getD 10)) ([], seen)

/-- `NewsFetcher.fetch_all`: the returned topic-name → article-list
mapping. -/
def fetch_all (c : Collab) (env : FetchEnv) (cfg : TopicsConfig)
    (seen : List String) : List (String × List Article) :=
  (fetchAllSt c env cfg seen).1

/-- How reading `topics.yaml` can go: parsed value, `FileNotFoundError`,
`PermissionError`/other `OSError`, or a YAML parse error. -/
inductive FileOutcome where
  | ok (cfg : TopicsConfig)
  | fileNotFound
  | permissionError
  | yamlError
deriving DecidableEq, Repr

/-- An exception escaping `_load_topics`. -/
inductive LoadError where
  | permissionError
  | yamlError
deriving DecidableEq, Repr

/-- `NewsFetcher._load_topics`: only `FileNotFoundError` is caught (and
degraded to `{"topics": [], "settings": {}}`); any other error
propagates out of the constructor. -/
def load_topics : FileOutcome → Except LoadError TopicsConfig
  | .ok cfg => .ok cfg
  | .fileNotFound => .ok { topics := some [], settings := some {} }
  | .permissionError => .error .permissionError
  | .yamlError => .error .yamlError

/-- `summarizer.SummarizedArticle` dataclass. -/
structure SummarizedArticle where
  original : Article
  ai_title : String
  ai_summary : String
  key_points : List String
deriving DecidableEq, Repr

/-- One element of the model's decoded `articles` array; `none` = key
absent (read with `.get` defaults). -/
structure RespItem where
  index : Option Int := none
  title : Option String := none
  summary : Option String := none
  key_points : Option (List String) := none
deriving DecidableEq, Repr

/-- What one chat-completion call in `summarize_batch` produces:
the call raises; it returns with falsy (`None`/empty) message content;
the content fails `json.loads`; or it decodes, with `items` the value of
`data.get("articles", [])`. -/
inductive BatchOutcome where
  | raises
  | emptyContent
  | badJson
  | ok (items : List RespItem)
deriving DecidableEq, Repr

/-- The response-parsing loop of `summarize_batch`: each element is
looked up at `index - 1` (`index` defaulting to 1); out-of-range
elements are skipped; in-range ones append a `SummarizedArticle` with
per-key defaults. -/
def processItems (batch : List Article) : List RespItem → List SummarizedArticle
  | [] => []
  | item :: rest =>
    if h : 0 ≤ item.index.getD 1 - 1 ∧ item.index.getD 1 - 1 < (batch.length : Int) then
      have hlt : (item.index.getD 1 - 1).toNat < batch.length := by omega
      { original := batch.get ⟨(item.index.getD 1 - 1).toNat, hlt⟩
        ai_title := item.title.getD (batch.get ⟨(item.index.getD 1 - 1).toNat, hlt⟩).title
        ai_summary := item.summary.getD ""
        key_points := item.key_points.getD [] } :: processItems batch rest
    else processItems batch rest

/-- The shared degrade path of `summarize_batch`: one pass-through
`SummarizedArticle` per article of the batch. -/
def fallbackBatch (batch : List Article) : List SummarizedArticle :=
  batch.map fun a =>
    { original := a, ai_title := a.title, ai_summary := a.summary, key_points := [] }

/-- What one batch contributes to `summarized`, by outcome.  Note the
falsy-content case: the `if content:` guard just skips the batch. -/
def runBatch (batch : List Article) : BatchOutcome → List SummarizedArticle
  | .raises => fallbackBatch batch
  | .emptyContent => []
  | .badJson => fallbackBatch batch
  | .ok items => processItems batch items

/-- The batch loop of `summarize_batch` (`k` = 0-based batch number; the
oracle `resp` gives each batch's outcome).  Python would raise on a zero
step, modelled as the empty result.  Structural recursion on a fuel
bounded by the list length (each step with `bs > 0` drops at least one
article, so the fuel never runs out when started at the length). -/
def sbGo (resp : Nat → BatchOutcome) (bs : Nat) : Nat → Nat → List Article →
    List SummarizedArticle
  | _, _, [] => []
  | 0, _, _ :: _ => []
  | fuel + 1, k, a :: rest =>
    if bs = 0 then []
    else
      runBatch ((a :: rest).take bs) (resp k) ++
        sbGo resp bs fuel (k + 1) ((a :: rest).drop bs)

/-- `Summarizer.summarize_batch`, with the per-batch outcomes supplied by
the oracle `resp`. -/
def summarize_batch (resp : Nat → BatchOutcome) (articles : List Article)
    (bs : Nat) : List SummarizedArticle :=
  if articles = [] then [] else sbGo resp bs articles.length 0 articles

/-- `Summarizer.summarize_all` over the (insertion-ordered) topic
mapping, `batch_size` left at its default 5. -/
def summarize_all (resp : String → Nat → BatchOutcome)
    (m : List (String × List Article)) : List (String × List SummarizedArticle) :=
  m.map fun p => (p.1, summarize_batch (resp p.1) p.2 5)

/-- Newest-first order on articles: the right one is no newer. -/
def publishedGE (x y : Article) : Prop := y.published ≤ x.published

instance : DecidableRel publishedGE := fun x y =>
  inferInstanceAs (Decidable (y.published ≤ x.published))

/-- Two articles with different ids. -/
def distinctIds (x y : Article) : Prop := x.id ≠ y.id

instance : DecidableRel distinctIds := fun x y =>
  inferInstanceAs (Decidable (x.id ≠ y.id))

/-- How a dedup-threading piece of the fetch pipeline extends the state:
it only adds ids, every kept article's id lands in the final set, none of
the kept ids was seen before, and the kept articles have pairwise
distinct ids. -/
structure DedupExt (seen : List String) (added : List Article)
    (seen2 : List String) : Prop where
  mono : ∀ s ∈ seen, s ∈ seen2
  kept : ∀ a ∈ added, a.id ∈ seen2
  isNew : ∀ a ∈ added, a.id ∉ seen
  distinct : added.Pairwise distinctIds

/-- Invariant of the topic loop of `fetch_all`: all article ids of the
accumulated results are registered in the dedup set, and they are
pairwise distinct across all topics. -/
def ResultsOk (res : List (String × List Article)) (seen : List String) : Prop :=
  (∀ a ∈ res.flatMap (fun p => p.2), a.id ∈ seen) ∧
    (res.flatMap (fun p => p.2)).Pairwise distinctIds

/-- The response items carry the 1-based indices `n, n+1, n+2, ...` in
order (reading `index` with its Python default 1). -/
def ConsecutiveFrom (n : Int) : List RespItem → Prop
  | [] => True
  | item :: rest => item.index.getD 1 = n ∧ ConsecutiveFrom (n + 1) rest

instance instDecConsecutiveFrom : (n : Int) → (items : List RespItem) →
    Decidable (ConsecutiveFrom n items)
  | _, [] => isTrue trivial
  | n, _ :: rest =>
    have := instDecConsecutiveFrom (n + 1) rest
    inferInstanceAs (Decidable (_ ∧ _))

/-- A batch outcome under which `summarize_batch` emits exactly one
`SummarizedArticle` per batch article, in order: either a degrade path
that runs the per-article fallback (the call raises, or the content
fails JSON decoding), or a decoded response whose `articles` array has
one element per batch article with the j-th carrying index j+1.  The
falsy-content outcome is excluded: it contributes nothing. -/
def WellFormedOutcome (batch : List Article) : BatchOutcome → Prop
  | .raises => True
  | .emptyContent => False
  | .badJson => True
  | .ok items => items.length = batch.length ∧ ConsecutiveFrom 1 items

instance (batch : List Article) : (o : BatchOutcome) →
    Decidable (WellFormedOutcome batch o)
  | .raises => isTrue trivial
  | .emptyContent => isFalse (fun h => h)
  | .badJson => isTrue trivial
  | .ok _ => inferInstanceAs (Decidable (_ ∧ _))

/-- The published-date resolution as the spec words it: an ordered chain
of independent parsers — structured fields first, then the string fields
against the explicit formats — first success wins, current time as last
resort.  Stated from the spec, for comparison with the source
translation `parse_published_date`. -/
def specDateChain (c : Collab) (e : Entry) : Int :=
  (([e.published_parsed, e.updated_parsed, e.created_parsed].findSome? fun o =>
      o.bind fun t => if t = [] then none else c.mkDatetimeUtc (t.take 6)).orElse fun _ =>
    [e.published, e.updated, e.created].findSome? fun o =>
      o.bind fun s =>
        if s = "" then none
        else dateFormats.findSome? fun fmt => c.strptime fmt (stripTZAbbrev s)).getD c.now

/-- The first non-empty summary candidate among the summary, description
and content fields, as the spec words it. -/
def firstCandidate (e : Entry) : Option String :=
  [e.summary, e.description, e.content].findSome? fun o =>
    o.bind fun v => if fieldText v = "" then none else some (fieldText v)

/-- Concrete stand-in for the stdlib collaborators, used to evaluate the
pipeline on sample inputs. -/
def cFix : Collab :=
  { md5hex := fun s => s ++ s
    mkDatetimeUtc := fun _ => none
    strptime := fun _ _ => none
    fromisoformat := fun _ => none
    now := 0 }

/-- A sample feed entry. -/
def entryFix : Entry := { title := "A", link := "http://x/1" }

/-- A sample fetched article. -/
def artFix : Article :=
  { title := "Lakers win", link := "http://x/1", source := "F", published := 0 }

/-- A sample network environment: one feed payload, no NewsAPI key. -/
def envFix : FetchEnv := { feedEntries := fun _ => some [entryFix] }

/-- A sample topics configuration: one topic with one feed. -/
def cfgFix : TopicsConfig :=
  { topics := some
      [{ name := some "T", rss_feeds := some [{ url := some "u", name := some "F" }] }] }

theorem insertDesc_perm (a : Article) (l : List Article) :
    List.Perm (insertDesc a l) (a :: l) := by
  induction l with
  | nil => exact List.Perm.refl _
  | cons b l ih =>
    rw [insertDesc]
    by_cases h : a.published < b.published
    · rw [if_pos h]
      exact (ih.cons b).trans (List.Perm.swap a b l)
    · rw [if_neg h]

theorem sortDesc_perm (l : List Article) : List.Perm (sortDesc l) l := by
  induction l with
  | nil => exact List.Perm.refl _
  | cons a l ih => exact (insertDesc_perm a (sortDesc l)).trans (ih.cons a)

theorem insertDesc_sorted (a : Article) {l : List Article}
    (h : List.Sorted publishedGE l) : List.Sorted publishedGE (insertDesc a l) := by
  induction l with
  | nil => simp [insertDesc]
  | cons b l ih =>
    rw [List.sorted_cons] at h
    rw [insertDesc]
    by_cases hab : a.published < b.published
    · rw [if_pos hab, List.sorted_cons]
      refine ⟨fun c hc => ?_, ih h.2⟩
      rcases List.mem_cons.mp ((insertDesc_perm a l).mem_iff.mp hc) with hc2 | hc2
      · rw [hc2]
        exact le_of_lt hab
      · exact h.1 c hc2
    · rw [if_neg hab, List.sorted_cons]
      refine ⟨fun c hc => ?_, List.sorted_cons.mpr h⟩
      rcases List.mem_cons.mp hc with hc2 | hc2
      · rw [hc2]
        exact le_of_not_lt hab
      · exact le_trans (h.1 c hc2) (le_of_not_lt hab)

theorem sortDesc_sorted (l : List Article) : List.Sorted publishedGE (sortDesc l) := by
  induction l with
  | nil => simp [sortDesc]
  | cons a l ih => exact insertDesc_sorted a ih

theorem distinctIds_symm : Symmetric distinctIds := fun _ _ h => Ne.symm h

theorem postprocess_mem {cutoff : Int} {maxA : Nat} {l : List Article} {a : Article}
    (h : a ∈ postprocess cutoff maxA l) : a ∈ l ∧ cutoff ≤ a.published := by
  have h1 : a ∈ sortDesc (l.filter fun a => decide (cutoff ≤ a.published)) :=
    List.take_subset maxA _ h
  have h2 : a ∈ l.filter fun a => decide (cutoff ≤ a.published) :=
    (sortDesc_perm _).mem_iff.mp h1
  exact ⟨(List.mem_filter.mp h2).1, of_decide_eq_true (List.mem_filter.mp h2).2⟩

theorem postprocess_sorted (cutoff : Int) (maxA : Nat) (l : List Article) :
    List.Sorted publishedGE (postprocess cutoff maxA l) :=
  (sortDesc_sorted _).sublist (List.take_sublist maxA _)

theorem postprocess_length (cutoff : Int) (maxA : Nat) (l : List Article) :
    (postprocess cutoff maxA l).length ≤ maxA :=
  List.length_take_le maxA _

theorem postprocess_pairwise {cutoff : Int} {maxA : Nat} {l : List Article}
    (h : l.Pairwise distinctIds) :
    (postprocess cutoff maxA l).Pairwise distinctIds := by
  have h1 : (l.filter fun a => decide (cutoff ≤ a.published)).Pairwise distinctIds :=
    h.filter _
  have h2 : (sortDesc (l.filter fun a => decide (cutoff ≤ a.published))).Pairwise
      distinctIds :=
    (((sortDesc_perm _).symm).pairwise_iff fun hxy => distinctIds_symm hxy).1 h1
  exact h2.sublist (List.take_sublist maxA _)

/-- Claim C10: an explicitly supplied non-empty id is left unchanged by
`__post_init__`; the title+link fingerprint is computed exactly when the
id field is the (default) empty string. -/
theorem explicit_id_preserved (md5hex : String → String) (a : Article) :
    (a.id ≠ "" → post_init md5hex a = a) ∧
    (a.id = "" → post_init md5hex a =
      { a with id := strTake (md5hex (a.title ++ a.link)) 12 }) := by
  constructor
  · intro h
    rw [post_init, if_neg h]
  · intro h
    rw [post_init, if_pos h]

/-- Witness for C10 at a concrete article carrying a pre-set id. -/
theorem explicit_id_preserved_witness :
    post_init (fun s => s ++ s)
        { title := "T", link := "L", source := "S", published := 0, id := "xyz" } =
      { title := "T", link := "L", source := "S", published := 0, id := "xyz" } :=
  (explicit_id_preserved (fun s => s ++ s)
    { title := "T", link := "L", source := "S", published := 0, id := "xyz" }).1
    (by decide)

/-- Claim C4: for articles built with the default empty id, the computed
id depends only on title and link — it is the (md5-hex collaborator)
digest of `title + link` truncated to 12 characters — so equal
title/link pairs give equal ids whatever the other attributes are. -/
theorem article_id_deterministic (md5hex : String → String) (a b : Article)
    (ha : a.id = "") (hb : b.id = "") (ht : a.title = b.title) (hl : a.link = b.link) :
    (post_init md5hex a).id = (post_init md5hex b).id ∧
    (post_init md5hex a).id = strTake (md5hex (a.title ++ a.link)) 12 := by
  rw [post_init, post_init, if_pos ha, if_pos hb]
  exact ⟨by rw [ht, hl], rfl⟩

/-- Witness for C4: two articles sharing title and link but differing in
source, published time, summary and topic get the same id. -/
theorem article_id_deterministic_witness :
    (post_init (fun s => s ++ s)
        { title := "T", link := "L", source := "S1", published := 5,
          summary := "x", topic := "t1" }).id =
      (post_init (fun s => s ++ s)
        { title := "T", link := "L", source := "S2", published := 9,
          summary := "y", topic := "t2" }).id ∧
    (post_init (fun s => s ++ s)
        { title := "T", link := "L", source := "S1", published := 5,
          summary := "x", topic := "t1" }).id =
      strTake ((fun s : String => s ++ s) ("T" ++ "L")) 12 :=
  article_id_deterministic (fun s => s ++ s) _ _ (by decide) (by decide) (by decide)
    (by decide)

/-- Claim C2 (code bug): the spec requires every failure mode — the call
raising, non-JSON content, or missing/empty content — to degrade to one
pass-through `SummarizedArticle` per batch article.  The `if content:`
guard in `summarize_batch` silently skips a batch whose returned message
content is falsy (`None` or `""`), so that batch's articles vanish from
the output instead of being passed through. -/
theorem empty_content_batch_dropped :
    summarize_batch (fun _ => BatchOutcome.emptyContent) [artFix] 5 = [] ∧
    fallbackBatch [artFix] =
      [{ original := artFix, ai_title := artFix.title, ai_summary := artFix.summary,
         key_points := [] }] := by
  constructor
  · rfl
  · rfl

/-- Claim C9 counterexample: an unreadable (permission-denied) topics
file is not degraded to an empty topic set — `_load_topics` catches only
`FileNotFoundError`, so any other file error escapes. -/
theorem load_topics_unreadable_not_ok :
    (load_topics FileOutcome.permissionError).isOk = false := rfl

/-- Claim C9 amended: a missing topics file (`FileNotFoundError`) yields
the `{"topics": [], "settings": {}}` configuration, with which the
pipeline proceeds and `fetch_all` reports zero articles; other file
errors (unreadable file, YAML errors) propagate instead. -/
theorem load_topics_missing_file_not_fatal :
    load_topics FileOutcome.fileNotFound =
      Except.ok { topics := some [], settings := some {} } ∧
    ∀ (c : Collab) (env : FetchEnv) (seen : List String),
      fetch_all c env { topics := some [], settings := some {} } seen = [] :=
  ⟨rfl, fun _ _ _ => rfl⟩

/-- Claim C6: response elements whose 1-based index is out of range for
the batch are discarded — running the (total, hence non-raising) parse
loop is the same as running it on only the in-range elements, so the
out-of-range ones do not disturb what the others produce. -/
theorem out_of_range_items_dropped (batch : List Article) (items : List RespItem) :
    runBatch batch (BatchOutcome.ok items) =
      runBatch batch (BatchOutcome.ok (items.filter fun item =>
        decide (0 ≤ item.index.getD 1 - 1 ∧
          item.index.getD 1 - 1 < (batch.length : Int)))) := by
  rw [runBatch, runBatch]
  induction items with
  | nil => rfl
  | cons item rest ih =>
    rw [List.filter_cons]
    by_cases h : 0 ≤ item.index.getD 1 - 1 ∧ item.index.getD 1 - 1 < (batch.length : Int)
    · rw [if_pos (decide_eq_true h)]
      simp only [processItems]
      rw [dif_pos h, dif_pos h, ih]
    · rw [if_neg (fun hh => h (of_decide_eq_true hh))]
      simp only [processItems]
      rw [dif_neg h, ih]

theorem tryFormats_eq (c : Collab) (s : String) (L : List String) :
    tryFormats c s L = L.findSome? fun fmt => c.strptime fmt s := by
  induction L with
  | nil => rfl
  | cons fmt rest ih =>
    rw [List.findSome?_cons]
    cases hm : c.strptime fmt s with
    | none => simp only [tryFormats, hm, ih]
    | some dt => simp only [tryFormats, hm]

theorem tryStructDates_eq (c : Collab) (L : List (Option (List Int))) :
    tryStructDates c L = L.findSome? fun o =>
      o.bind fun t => if t = [] then none else c.mkDatetimeUtc (t.take 6) := by
  induction L with
  | nil => rfl
  | cons o rest ih =>
    cases o with
    | none => simpa only [List.findSome?_cons, tryStructDates, Option.bind] using ih
    | some t =>
      by_cases ht : t = []
      · have hval : ((some t).bind fun t =>
            if t = [] then none else c.mkDatetimeUtc (t.take 6)) = none := by
          simp [ht]
        simp only [List.findSome?_cons, hval, tryStructDates, if_pos ht]
        exact ih
      · cases hm : c.mkDatetimeUtc (t.take 6) with
        | none =>
          have hval : ((some t).bind fun t =>
              if t = [] then none else c.mkDatetimeUtc (t.take 6)) = none := by
            simp [ht, hm]
          simp only [List.findSome?_cons, hval, tryStructDates, if_neg ht, hm]
          exact ih
        | some dt =>
          have hval : ((some t).bind fun t =>
              if t = [] then none else c.mkDatetimeUtc (t.take 6)) = some dt := by
            simp [ht, hm]
          simp only [List.findSome?_cons, hval, tryStructDates, if_neg ht, hm]

theorem tryStringDates_eq (c : Collab) (L : List (Option String)) :
    tryStringDates c L = L.findSome? fun o =>
      o.bind fun s =>
        if s = "" then none
        else dateFormats.findSome? fun fmt => c.strptime fmt (stripTZAbbrev s) := by
  induction L with
  | nil => rfl
  | cons o rest ih =>
    cases o with
    | none => simpa only [List.findSome?_cons, tryStringDates, Option.bind] using ih
    | some s =>
      by_cases hs : s = ""
      · have hval : ((some s).bind fun s =>
            if s = "" then none
            else dateFormats.findSome? fun fmt => c.strptime fmt (stripTZAbbrev s)) =
              none := by
          simp [hs]
        simp only [List.findSome?_cons, hval, tryStringDates, if_pos hs]
        exact ih
      · cases hm : dateFormats.findSome? fun fmt => c.strptime fmt (stripTZAbbrev s) with
        | none =>
          have hval : ((some s).bind fun s =>
              if s = "" then none
              else dateFormats.findSome? fun fmt => c.strptime fmt (stripTZAbbrev s)) =
                none := by
            simp [hs, hm]
          simp only [List.findSome?_cons, hval, tryStringDates, if_neg hs,
            tryFormats_eq, hm]
          exact ih
        | some dt =>
          have hval : ((some s).bind fun s =>
              if s = "" then none
              else dateFormats.findSome? fun fmt => c.strptime fmt (stripTZAbbrev s)) =
                some dt := by
            simp [hs, hm]
          simp only [List.findSome?_cons, hval, tryStringDates, if_neg hs,
            tryFormats_eq, hm]

/-- Claim C7: `_parse_published_date` is total (it is a function into
timestamps, every entry yielding a value) and deterministic, and it equals
the spec's fallback chain: the structured parsed-date fields first, then
the string date formats in listed order with the first success winning,
and the current time as last resort. -/
theorem parse_published_date_follows_chain (c : Collab) (e : Entry) :
    parse_published_date c e = specDateChain c e := by
  rw [parse_published_date, specDateChain, tryStructDates_eq, tryStringDates_eq]
  cases h1 : [e.published_parsed, e.updated_parsed, e.created_parsed].findSome? fun o =>
      o.bind fun t => if t = [] then none else c.mkDatetimeUtc (t.take 6) with
  | some dt => simp [Option.orElse, h1]
  | none =>
    cases h2 : [e.published, e.updated, e.created].findSome? fun o =>
        o.bind fun s =>
          if s = "" then none
          else dateFormats.findSome? fun fmt => c.strptime fmt (stripTZAbbrev s) with
    | some dt => simp [Option.orElse, h2]
    | none => simp [Option.orElse, h2]

theorem extractFromFields_spec (L : List (Option FieldVal)) :
    ((L.findSome? fun o => o.bind fun v =>
        if fieldText v = "" then none else some (fieldText v)) = none →
      extractFromFields L = "") ∧
    ∀ s, (L.findSome? fun o => o.bind fun v =>
        if fieldText v = "" then none else some (fieldText v)) = some s →
      extractFromFields L = truncate500 ⟨stripTags s.data⟩ := by
  induction L with
  | nil => exact ⟨fun _ => rfl, fun s h => by cases h⟩
  | cons o rest ih =>
    cases o with
    | none => simpa only [List.findSome?_cons, extractFromFields, Option.bind] using ih
    | some v =>
      by_cases hv : fieldText v = ""
      · have hval : ((some v).bind fun v =>
            if fieldText v = "" then none else some (fieldText v)) = none := by
          simp [hv]
        simp only [List.findSome?_cons, hval, extractFromFields, if_pos hv]
        exact ih
      · have hval : ((some v).bind fun v =>
            if fieldText v = "" then none else some (fieldText v)) =
              some (fieldText v) := by
          simp [hv]
        simp only [List.findSome?_cons, hval, extractFromFields, if_neg hv]
        exact ⟨fun h => Option.noConfusion h,
          fun s h => by rw [Option.some.inj h]⟩

theorem truncate500_length (s : String) : strLen (truncate500 s) ≤ 500 := by
  rw [truncate500]
  by_cases h : 500 < strLen s
  · rw [if_pos h]
    simp [strLen, strTake]
  · rw [if_neg h]
    omega

/-- Claim C8: `_extract_summary` returns the first non-empty candidate
among the summary, description and content fields, tag-stripped by the
greedy `<...>` pass and truncated to at most 500 characters; with no
such candidate it returns the empty string. -/
theorem extract_summary_spec (e : Entry) :
    strLen (extract_summary e) ≤ 500 ∧
    (firstCandidate e = none → extract_summary e = "") ∧
    ∀ s, firstCandidate e = some s →
      extract_summary e = truncate500 ⟨stripTags s.data⟩ := by
  have h := extractFromFields_spec [e.summary, e.description, e.content]
  refine ⟨?_, h.1, h.2⟩
  cases hf : [e.summary, e.description, e.content].findSome? fun o =>
      o.bind fun v => if fieldText v = "" then none else some (fieldText v) with
  | none =>
    have : extract_summary e = "" := h.1 hf
    rw [this]
    decide
  | some s =>
    have : extract_summary e = truncate500 ⟨stripTags s.data⟩ := h.2 s hf
    rw [this]
    exact truncate500_length _

theorem processItems_consecutive (b : List Article) :
    ∀ (items : List RespItem) (start : Nat),
      ConsecutiveFrom ((start : Int) + 1) items →
      start + items.length ≤ b.length →
      (processItems b items).map (fun x => x.original) = (b.drop start).take items.length := by
  intro items
  induction items with
  | nil =>
    intro start _ _
    rfl
  | cons item rest ih =>
    intro start hcons hlen
    obtain ⟨hidx, hrest⟩ := hcons
    have hb : start < b.length := by
      simp only [List.length_cons] at hlen
      omega
    have hguard : 0 ≤ item.index.getD 1 - 1 ∧ item.index.getD 1 - 1 < (b.length : Int) := by
      rw [hidx]
      constructor
      · omega
      · have : (start : Int) < (b.length : Int) := by exact_mod_cast hb
        omega
    have htn : (item.index.getD 1 - 1).toNat = start := by
      rw [hidx]
      omega
    simp only [processItems]
    rw [dif_pos hguard]
    simp only [htn, List.map_cons]
    have hrest2 : ConsecutiveFrom (((start + 1 : Nat) : Int) + 1) rest := by
      have hx : (((start + 1 : Nat) : Int) + 1) = (start : Int) + 1 + 1 := by push_cast; ring
      rw [hx]
      exact hrest
    have htail := ih (start + 1) hrest2 (by simp only [List.length_cons] at hlen; omega)
    rw [htail, List.drop_eq_getElem_cons hb]
    simp only [List.length_cons, List.take_succ_cons, List.get_eq_getElem]

theorem runBatch_map_original {b : List Article} {o : BatchOutcome}
    (h : WellFormedOutcome b o) :
    (runBatch b o).map (fun x => x.original) = b := by
  cases o with
  | raises => simp [runBatch, fallbackBatch, List.map_map, Function.comp_def]
  | emptyContent => exact h.elim
  | badJson => simp [runBatch, fallbackBatch, List.map_map, Function.comp_def]
  | ok items =>
    obtain ⟨hlen, hcons⟩ := h
    have hc : ConsecutiveFrom (((0 : Nat) : Int) + 1) items := by simpa using hcons
    have := processItems_consecutive b items 0 hc (by omega)
    simpa [hlen] using this

theorem sbGo_map_original (resp : Nat → BatchOutcome) (bs : Nat) (hbs : 0 < bs) :
    ∀ (fuel k : Nat) (l : List Article), l.length ≤ fuel →
      (∀ j, bs * j < l.length →
        WellFormedOutcome ((l.drop (bs * j)).take bs) (resp (k + j))) →
      (sbGo resp bs fuel k l).map (fun x => x.original) = l := by
  intro fuel
  induction fuel with
  | zero =>
    intro k l hl _
    cases l with
    | nil => rfl
    | cons a rest => simp at hl
  | succ fuel ih =>
    intro k l hl hwf
    cases l with
    | nil => rfl
    | cons a rest =>
      simp only [sbGo]
      rw [if_neg (Nat.pos_iff_ne_zero.mp hbs), List.map_append]
      have h0 : WellFormedOutcome ((a :: rest).take bs) (resp k) := by
        have := hwf 0 (by simp)
        simpa using this
      rw [runBatch_map_original h0]
      have htail := ih (k + 1) ((a :: rest).drop bs)
        (by simp only [List.length_drop, List.length_cons] at *; omega)
        (fun j hj => by
          have hmul : bs * (j + 1) = bs * j + bs := Nat.mul_succ bs j
          have hj2 : bs * (j + 1) < (a :: rest).length := by
            simp only [List.length_drop] at hj
            omega
          have := hwf (j + 1) hj2
          have hdd : ((a :: rest).drop bs).drop (bs * j) = (a :: rest).drop (bs * (j + 1)) := by
            rw [List.drop_drop]
            ring_nf
          have hk : k + (j + 1) = k + 1 + j := by omega
          rw [hdd, ← hk]
          exact this)
      rw [htail]
      exact List.take_append_drop bs (a :: rest)

/-- Claim C1 counterexample: on the success path nothing forces the
decoded response to cover the batch — a decoded `{"articles": []}` for a
one-article topic yields an empty output list, so the output does not
have the input's shape. -/
theorem summarize_all_shape_cex :
    summarize_all (fun _ _ => BatchOutcome.ok []) [("NBA", [artFix])] = [("NBA", [])] ∧
    ([] : List SummarizedArticle).length ≠ ([artFix] : List Article).length := by
  constructor
  · rfl
  · decide

/-- Claim C1 amended: for every topic of the mapping, the output list of
`summarize_all` has the input's length and the i-th output's `original`
is the i-th input article, PROVIDED every consulted batch outcome is
well-formed — the call raises, or JSON decoding fails, or the decoded
`articles` array lists every batch article once, in order (index j+1 at
position j); a batch with falsy content or any other response shape can
change the output's shape. -/
theorem summarize_all_shape (resp : String → Nat → BatchOutcome)
    (m : List (String × List Article))
    (hwf : ∀ p ∈ m, ∀ j, 5 * j < p.2.length →
      WellFormedOutcome ((p.2.drop (5 * j)).take 5) (resp p.1 j)) :
    (summarize_all resp m).length = m.length ∧
    List.Forall₂ (fun q p => q.1 = p.1 ∧ q.2.map (fun x => x.original) = p.2)
      (summarize_all resp m) m := by
  have hall : List.Forall₂ (fun q p => q.1 = p.1 ∧
      q.2.map (fun x => x.original) = p.2) (summarize_all resp m) m := by
    rw [summarize_all, List.forall₂_map_left_iff, List.forall₂_same]
    intro p hp
    refine ⟨rfl, ?_⟩
    have hw := hwf p hp
    rw [summarize_batch]
    by_cases hnil : p.2 = []
    · rw [if_pos hnil, hnil]
      rfl
    · rw [if_neg hnil]
      exact sbGo_map_original (resp p.1) 5 (by omega) _ 0 _ le_rfl
        (fun j hj => by simpa using hw j hj)
  exact ⟨hall.length_eq, hall⟩

theorem DedupExt.rfl (seen : List String) : DedupExt seen [] seen :=
  ⟨fun _ hs => hs, fun _ h => absurd h (List.not_mem_nil _),
   fun _ h => absurd h (List.not_mem_nil _), List.Pairwise.nil⟩

theorem DedupExt.comp {s1 s2 s3 : List String} {f1 f2 : List Article}
    (h1 : DedupExt s1 f1 s2) (h2 : DedupExt s2 f2 s3) :
    DedupExt s1 (f1 ++ f2) s3 := by
  refine ⟨fun s hs => h2.mono s (h1.mono s hs), ?_, ?_, ?_⟩
  · intro a ha
    rcases List.mem_append.mp ha with ha | ha
    · exact h2.mono _ (h1.kept a ha)
    · exact h2.kept a ha
  · intro a ha
    rcases List.mem_append.mp ha with ha | ha
    · exact h1.isNew a ha
    · exact fun hmem => h2.isNew a ha (h1.mono _ hmem)
  · rw [List.pairwise_append]
    refine ⟨h1.distinct, h2.distinct, fun a ha b hb => ?_⟩
    exact fun heq => h2.isNew b hb (heq ▸ h1.kept a ha)

theorem DedupExt.single {seen : List String} {a : Article} (h : a.id ∉ seen) :
    DedupExt seen [a] (a.id :: seen) := by
  refine ⟨fun s hs => List.mem_cons_of_mem _ hs, ?_, ?_, by simp⟩
  · intro b hb
    rw [List.mem_singleton.mp hb]
    exact List.mem_cons_self _ _
  · intro b hb
    rw [List.mem_singleton.mp hb]
    exact h

theorem foldl_dedup {α : Type}
    (step : List Article × List String → α → List Article × List String)
    (hstep : ∀ arts seen x, ∃ Δ s2,
      step (arts, seen) x = (arts ++ Δ, s2) ∧ DedupExt seen Δ s2) :
    ∀ (xs : List α) (arts : List Article) (seen : List String),
      ∃ Δ s2, xs.foldl step (arts, seen) = (arts ++ Δ, s2) ∧ DedupExt seen Δ s2 := by
  intro xs
  induction xs with
  | nil =>
    intro arts seen
    exact ⟨[], seen, by simp, DedupExt.rfl seen⟩
  | cons x rest ih =>
    intro arts seen
    obtain ⟨d1, s1, hx, hext1⟩ := hstep arts seen x
    obtain ⟨d2, s2, hr, hext2⟩ := ih (arts ++ d1) s1
    refine ⟨d1 ++ d2, s2, ?_, hext1.comp hext2⟩
    rw [List.foldl_cons, hx, hr, List.append_assoc]

theorem processEntry_shape (c : Collab) (fn tp : String) :
    ∀ (arts : List Article) (seen : List String) (e : Entry),
      ∃ Δ s2, processEntry c fn tp (arts, seen) e = (arts ++ Δ, s2) ∧
        DedupExt seen Δ s2 := by
  intro arts seen e
  by_cases h1 : pyStrip e.title = "" ∨ e.link = ""
  · exact ⟨[], seen, by simp [processEntry, h1], DedupExt.rfl seen⟩
  · by_cases h2 : (entryArticle c fn tp e).id ∈ seen
    · exact ⟨[], seen, by simp [processEntry, h1, h2], DedupExt.rfl seen⟩
    · exact ⟨[entryArticle c fn tp e], (entryArticle c fn tp e).id :: seen,
        by simp [processEntry, h1, h2], DedupExt.single h2⟩

theorem processApiItem_shape (c : Collab) (tp : String) :
    ∀ (arts : List Article) (seen : List String) (it : ApiItem),
      ∃ Δ s2, processApiItem c tp (arts, seen) it = (arts ++ Δ, s2) ∧
        DedupExt seen Δ s2 := by
  intro arts seen it
  by_cases h1 : pyStrip it.title = "" ∨ it.url = "" ∨ pyStrip it.title = "[Removed]"
  · exact ⟨[], seen, by simp [processApiItem, h1], DedupExt.rfl seen⟩
  · by_cases h2 : (apiArticle c tp it).id ∈ seen
    · exact ⟨[], seen, by simp [processApiItem, h1, h2], DedupExt.rfl seen⟩
    · exact ⟨[apiArticle c tp it], (apiArticle c tp it).id :: seen,
        by simp [processApiItem, h1, h2], DedupExt.single h2⟩

theorem fetch_rss_feed_ext (c : Collab) (fd : Option (List Entry)) (fn tp : String)
    (seen : List String) :
    DedupExt seen (fetch_rss_feed c fd fn tp seen).1 (fetch_rss_feed c fd fn tp seen).2 := by
  cases fd with
  | none => exact DedupExt.rfl seen
  | some entries =>
    obtain ⟨Δ, s2, heq, hext⟩ := foldl_dedup (processEntry c fn tp)
      (processEntry_shape c fn tp) (entries.take 20) [] seen
    simp only [fetch_rss_feed, heq, List.nil_append]
    exact hext

theorem fetch_news_api_ext (c : Collab) (env : FetchEnv) (ks : List String)
    (tp : String) (seen : List String) :
    DedupExt seen (fetch_news_api c env ks tp seen).1
      (fetch_news_api c env ks tp seen).2 := by
  rw [fetch_news_api]
  cases env.newsApiKey with
  | none => exact DedupExt.rfl seen
  | some key =>
    by_cases hk : key = ""
    · simp only [if_pos hk]
      exact DedupExt.rfl seen
    · simp only [if_neg hk]
      cases env.apiResults (joinSep " OR " (ks.take 3)) with
      | none => exact DedupExt.rfl seen
      | some items =>
        obtain ⟨Δ, s2, heq, hext⟩ := foldl_dedup (processApiItem c tp)
          (processApiItem_shape c tp) items [] seen
        simp only [heq, List.nil_append]
        exact hext

theorem feedStep_shape (c : Collab) (env : FetchEnv) (tp : String) :
    ∀ (arts : List Article) (seen : List String) (f : FeedCfg),
      ∃ Δ s2, feedStep c env tp (arts, seen) f = (arts ++ Δ, s2) ∧
        DedupExt seen Δ s2 := by
  intro arts seen f
  by_cases h : f.url.getD "" = ""
  · exact ⟨[], seen, by simp [feedStep, h], DedupExt.rfl seen⟩
  · refine ⟨(fetch_rss_feed c (env.feedEntries (f.url.getD "")) (f.name.getD "Unknown")
      tp seen).1, _, by simp [feedStep, h], fetch_rss_feed_ext c _ _ _ seen⟩

theorem topicStep_ext (c : Collab) (env : FetchEnv) (cutoff : Int) (maxA : Nat)
    (st : List (String × List Article) × List String) (t : TopicCfg) :
    ∃ Δ s2, topicStep c env cutoff maxA st t =
      (st.1 ++ [(t.name.getD "Unknown", postprocess cutoff maxA Δ)], s2) ∧
      DedupExt st.2 Δ s2 := by
  obtain ⟨d1, s1, hr, hext1⟩ := foldl_dedup (feedStep c env (t.name.getD "Unknown"))
    (feedStep_shape c env _) (t.rss_feeds.getD []) [] st.2
  rw [topicStep, hr]
  simp only [List.nil_append]
  by_cases hapi : d1.length < 5 ∧ t.keywords.getD [] ≠ []
  · rw [if_pos hapi]
    exact ⟨d1 ++ (fetch_news_api c env (t.keywords.getD [])
        (t.name.getD "Unknown") s1).1, _, rfl,
      hext1.comp (fetch_news_api_ext c env _ _ s1)⟩
  · rw [if_neg hapi]
    exact ⟨d1, s1, rfl, hext1⟩

theorem topicStep_resultsOk (c : Collab) (env : FetchEnv) (cutoff : Int) (maxA : Nat)
    {st : List (String × List Article) × List String} (t : TopicCfg)
    (h : ResultsOk st.1 st.2) :
    ResultsOk (topicStep c env cutoff maxA st t).1
      (topicStep c env cutoff maxA st t).2 := by
  obtain ⟨Δ, s2, heq, hext⟩ := topicStep_ext c env cutoff maxA st t
  rw [heq]
  constructor
  · intro a ha
    rw [ResultsOk] at h
    simp only [List.flatMap_append, List.flatMap_cons, List.flatMap_nil,
      List.append_nil, List.mem_append] at ha
    rcases ha with ha | ha
    · exact hext.mono _ (h.1 a ha)
    · exact hext.kept a (postprocess_mem ha).1
  · simp only [List.flatMap_append, List.flatMap_cons, List.flatMap_nil,
      List.append_nil]
    rw [List.pairwise_append]
    refine ⟨h.2, postprocess_pairwise hext.distinct, fun a ha b hb => ?_⟩
    have hbnew : b.id ∉ st.2 := hext.isNew b (postprocess_mem hb).1
    have haold : a.id ∈ st.2 := h.1 a ha
    exact fun heq2 => hbnew (heq2 ▸ haold)

theorem foldl_topicStep_resultsOk (c : Collab) (env : FetchEnv) (cutoff : Int)
    (maxA : Nat) :
    ∀ (ts : List TopicCfg) (st : List (String × List Article) × List String),
      ResultsOk st.1 st.2 →
      ResultsOk (ts.foldl (topicStep c env cutoff maxA) st).1
        (ts.foldl (topicStep c env cutoff maxA) st).2 := by
  intro ts
  induction ts with
  | nil => exact fun st h => h
  | cons t rest ih =>
    intro st h
    rw [List.foldl_cons]
    exact ih _ (topicStep_resultsOk c env cutoff maxA t h)

theorem foldl_topicStep_post (c : Collab) (env : FetchEnv) (cutoff : Int)
    (maxA : Nat) :
    ∀ (ts : List TopicCfg) (st : List (String × List Article) × List String),
      (∀ p ∈ st.1, ∃ raw, p.2 = postprocess cutoff maxA raw) →
      ∀ p ∈ (ts.foldl (topicStep c env cutoff maxA) st).1,
        ∃ raw, p.2 = postprocess cutoff maxA raw := by
  intro ts
  induction ts with
  | nil => exact fun st h => h
  | cons t rest ih =>
    intro st h
    rw [List.foldl_cons]
    refine ih _ ?_
    obtain ⟨Δ, s2, heq, _⟩ := topicStep_ext c env cutoff maxA st t
    rw [heq]
    intro p hp
    rcases List.mem_append.mp hp with hp | hp
    · exact h p hp
    · exact ⟨Δ, by rw [List.mem_singleton.mp hp]⟩

/-- Claim C3: every topic list returned by `fetch_all` contains only
articles published at or after `now - keep_days` (the boundary is kept:
the filter is `published >= cutoff`), is ordered by non-increasing
published timestamp, and has length at most `max_articles_per_topic`
(defaults 10 and 2 days when the settings keys are absent). -/
theorem fetch_all_postprocessing (c : Collab) (env : FetchEnv) (cfg : TopicsConfig)
    (seen : List String) :
    ∀ p ∈ fetch_all c env cfg seen,
      (∀ a ∈ p.2,
        c.now - (cfg.settings.getD {}).keep_days.getD 2 * 86400 ≤ a.published) ∧
      List.Sorted publishedGE p.2 ∧
      p.2.length ≤ (cfg.settings.getD {}).max_articles_per_topic.getD 10 := by
  intro p hp
  rw [fetch_all, fetchAllSt] at hp
  obtain ⟨raw, hraw⟩ := foldl_topicStep_post c env
    (c.now - (cfg.settings.getD {}).keep_days.getD 2 * 86400)
    ((cfg.settings.getD {}).max_articles_per_topic.getD 10)
    (cfg.topics.getD []) ([], seen) (by simp) p hp
  rw [hraw]
  exact ⟨fun a ha => (postprocess_mem ha).2, postprocess_sorted _ _ _,
    postprocess_length _ _ _⟩

/-- Claim C5: the per-entry dedup step drops an entry whose computed id
is already in the per-run set and otherwise keeps the article while
adding its id; consequently no two articles across all topics returned
by `fetch_all` share an id, and a fetch of a feed contributes no article
whose id was seen before the fetch (so a second fetch of the same feed
within the run contributes nothing previously seen). -/
theorem dedup_properties :
    (∀ (c : Collab) (fn tp : String) (arts : List Article) (seen : List String)
        (e : Entry), pyStrip e.title ≠ "" → e.link ≠ "" →
      ((entryArticle c fn tp e).id ∈ seen →
        processEntry c fn tp (arts, seen) e = (arts, seen)) ∧
      ((entryArticle c fn tp e).id ∉ seen →
        processEntry c fn tp (arts, seen) e =
          (arts ++ [entryArticle c fn tp e], (entryArticle c fn tp e).id :: seen))) ∧
    (∀ (c : Collab) (env : FetchEnv) (cfg : TopicsConfig) (seen : List String),
      ((fetch_all c env cfg seen).flatMap (fun p => p.2)).Pairwise distinctIds) ∧
    (∀ (c : Collab) (fd : Option (List Entry)) (fn tp : String) (seen : List String),
      ∀ a ∈ (fetch_rss_feed c fd fn tp seen).1, a.id ∉ seen) := by
  refine ⟨?_, ?_, ?_⟩
  · intro c fn tp arts seen e ht hl
    have hskip : ¬(pyStrip e.title = "" ∨ e.link = "") := by tauto
    constructor
    · intro hmem
      simp [processEntry, hskip, hmem]
    · intro hmem
      simp [processEntry, hskip, hmem]
  · intro c env cfg seen
    have h := foldl_topicStep_resultsOk c env
      (c.now - (cfg.settings.getD {}).keep_days.getD 2 * 86400)
      ((cfg.settings.getD {}).max_articles_per_topic.getD 10)
      (cfg.topics.getD []) ([], seen) (by constructor <;> simp [ResultsOk])
    rw [fetch_all, fetchAllSt]
    exact h.2
  · intro c fd fn tp seen a ha
    exact (fetch_rss_feed_ext c fd fn tp seen).isNew a ha

/-- Witness for the amended C1: a one-topic mapping whose only batch
raises satisfies the well-formedness condition, and the theorem yields
the shape correspondence there. -/
theorem summarize_all_shape_witness :
    (summarize_all (fun _ _ => BatchOutcome.raises) [("t", [artFix])]).length =
      ([("t", [artFix])] : List (String × List Article)).length ∧
    List.Forall₂ (fun q p => q.1 = p.1 ∧ q.2.map (fun x => x.original) = p.2)
      (summarize_all (fun _ _ => BatchOutcome.raises) [("t", [artFix])])
      [("t", [artFix])] :=
  summarize_all_shape (fun _ _ => BatchOutcome.raises) [("t", [artFix])]
    (fun p hp j hj => by
      have hp2 : p = ("t", [artFix]) := List.mem_singleton.mp hp
      subst hp2
      have hj0 : j = 0 := by
        simp only [List.length_singleton] at hj
        omega
      subst hj0
      exact trivial)

/-- Witness for C3 on the sample pipeline run: the topic "T" comes back
with one in-window article, sorted, within the cap. -/
theorem fetch_all_postprocessing_witness :
    (∀ a ∈ (("T", [entryArticle cFix "F" "T" entryFix]) : String × List Article).2,
      cFix.now - (cfgFix.settings.getD {}).keep_days.getD 2 * 86400 ≤ a.published) ∧
    List.Sorted publishedGE [entryArticle cFix "F" "T" entryFix] ∧
    ([entryArticle cFix "F" "T" entryFix] : List Article).length ≤
      (cfgFix.settings.getD {}).max_articles_per_topic.getD 10 :=
  fetch_all_postprocessing cFix envFix cfgFix []
    ("T", [entryArticle cFix "F" "T" entryFix]) (by decide)

/-- Witness for C5: a fresh entry is kept and its id registered, and the
sample run's articles have pairwise distinct ids. -/
theorem dedup_properties_witness :
    processEntry cFix "F" "T" ([], []) entryFix =
      ([entryArticle cFix "F" "T" entryFix],
        [(entryArticle cFix "F" "T" entryFix).id]) ∧
    ((fetch_all cFix envFix cfgFix []).flatMap (fun p => p.2)).Pairwise distinctIds :=
  ⟨(dedup_properties.1 cFix "F" "T" [] [] entryFix (by decide) (by decide)).2
      (by decide),
    dedup_properties.2.1 cFix envFix cfgFix []⟩

/-- Witness for C8 on an entry whose summary field holds markup. -/
theorem extract_summary_spec_witness :
    extract_summary { summary := some (FieldVal.str "a<b>c") } =
      truncate500 ⟨stripTags ("a<b>c" : String).data⟩ ∧
    strLen (extract_summary { summary := some (FieldVal.str "a<b>c") }) ≤ 500 :=
  ⟨(extract_summary_spec { summary := some (FieldVal.str "a<b>c") }).2.2 "a<b>c"
      (by decide),
    (extract_summary_spec { summary := some (FieldVal.str "a<b>c") }).1⟩

end InfoPulse
